import Mathlib

/-!
# Verification of the tag-blocker rule matching / rewriting engine

Shallow embedding of `src/index.js` (a SillyTavern-style extension that
rewrites outbound request bodies with user-defined tag-pair / regex rules).

Conventions of the embedding:

* JS strings are Lean `String`s; most string algorithms are expressed on the
  underlying `List Char` (JS `includes` / `lastIndexOf` / `substring` become
  list scans).  Code-unit vs code-point subtleties are out of scope: every
  claim is about exact character sequences.
* JS `null`/`undefined` values of a field become `Option`; JS string
  truthiness (`if (s)`) becomes the test `s ≠ ""` on a present value.
* The host RegExp engine is external to the repository.  Its compile step is
  modelled by an explicit parameter
  `compile : String → String → Option (String → String → String)`:
  `compile body flags` is `none` when `new RegExp(body, flags)` would throw,
  and otherwise yields the total replace function
  `fun text repl => text.replace(regex, repl)` of the compiled regex.
* The tag-pair rewriter (`processWithTags`) builds the pattern
  `escapeRegex(start) ++ "(.*?)" ++ escapeRegex(end)` with flags `gs` and
  calls `text.replace`.  Because both tag literals are escaped, the compiled
  regex denotes: literal start tag, lazy any-character (newlines included)
  middle, literal end tag.  The embedding implements exactly the JS
  `String.replace` semantics of that pattern family: repeatedly take the
  leftmost position carrying a full match, with the lazy middle ending at the
  first end-tag occurrence, replace it by the replacement template
  (JS `$$`/`$&`/backtick/quote/`$1` expansion), and continue after the match
  (advancing one character after an empty match).  The recursion is
  structural in a fuel argument; each step consumes at least one input
  character, so fuel `length + 1` is sufficient and is what the wrapper
  passes.
-/

set_option autoImplicit false

/-- Rule record, the `TagBlockerTag` typedef of `src/index.js` (lines 6-22).
`minDepth`/`maxDepth` are `null`able integers; `regexPattern = null` selects
tag mode; `placement` is a list of numbers (0 = user input, 1 = AI output,
2 = system prompt). -/
structure TagBlockerTag where
  id : String
  startTag : String
  endTag : String
  enabled : Bool
  minDepth : Option Int
  maxDepth : Option Int
  markdownOnly : Bool
  promptOnly : Bool
  runOnEdit : Bool
  placement : List Int
  regexPattern : Option String
  replaceString : String
  scriptName : String
  substituteRegex : Int
  deriving Repr, DecidableEq

/-- Exclusion entry, the `TagBlockerExcludedPrompt` typedef (lines 24-30). -/
structure TagBlockerExcludedPrompt where
  id : String
  text : String
  excluded : Bool
  source : String
  deriving Repr, DecidableEq

/-- Persisted script object consumed by `importScriptToTag` (lines 129-152).
Every field may be absent (`undefined`); for the string fields the code only
distinguishes truthy values, so `null` and `undefined` are both `none` and
the empty string is kept as `some ""`. -/
structure ScriptData where
  id : Option String
  scriptName : Option String
  findRegex : Option String
  replaceString : Option String
  startTag : Option String
  endTag : Option String
  minDepth : Option Int
  maxDepth : Option Int
  markdownOnly : Option Bool
  promptOnly : Option Bool
  runOnEdit : Option Bool
  placement : Option (List Int)
  substituteRegex : Option Int
  disabled : Option Bool
  deriving Repr, DecidableEq

/-- JS `a || b` for an optional string: a falsy (absent or empty) left
operand falls through to the right one. -/
def jsOrString (a : Option String) (b : String) : String :=
  match a with
  | some s => if s = "" then b else s
  | none => b

/-- `importScriptToTag(scriptData)` (src/index.js lines 129-152), with the
nondeterministic `uuidv4()` supplied as the `fresh` argument.  Note the
source always sets `startTag: ''` and `endTag: ''` and takes
`regexPattern = scriptData.findRegex || null`. -/
def importScriptToTag (fresh : String) (scriptData : ScriptData) : TagBlockerTag :=
  { id := jsOrString scriptData.id fresh
    scriptName := jsOrString scriptData.scriptName "导入的脚本"
    regexPattern :=
      match scriptData.findRegex with
      | some s => if s = "" then none else some s
      | none => none
    replaceString := jsOrString scriptData.replaceString ""
    startTag := ""
    endTag := ""
    minDepth := scriptData.minDepth
    maxDepth := scriptData.maxDepth
    markdownOnly := scriptData.markdownOnly.getD false
    promptOnly := scriptData.promptOnly.getD true
    runOnEdit := scriptData.runOnEdit.getD true
    placement := scriptData.placement.getD [2]
    substituteRegex := scriptData.substituteRegex.getD 0
    enabled :=
      match scriptData.disabled with
      | some d => !d
      | none => true }

/-- Boolean test that `P` is a prefix of `s` (the JS regex engine attempting
the literal `P` at the current position). -/
def startsWithList (P : List Char) : List Char → Bool
  | s =>
    match P, s with
    | [], _ => true
    | _ :: _, [] => false
    | p :: P', c :: s' => p = c && startsWithList P' s'

/-- First occurrence of the literal `P` in `s`: returns the part strictly
before the occurrence and the part strictly after it.  This is the scan JS
performs for `String.includes` and for matching a literal (each position is
tried left to right). -/
def splitFirst (P : List Char) : List Char → Option (List Char × List Char)
  | [] => if startsWithList P [] then some ([], []) else none
  | c :: s' =>
    if startsWithList P (c :: s') then some ([], (c :: s').drop P.length)
    else
      match splitFirst P s' with
      | some (u, v) => some (c :: u, v)
      | none => none

/-- Leftmost match of the pattern `S(.*?)E` (lazy middle, `s` flag) in `s`:
returns `(before, middle, after)`.  The JS engine tries each position left to
right; at a position where the literal `S` matches, the lazy middle extends
to the first following occurrence of the literal `E`; if none exists the
engine moves to the next position. -/
def findMatch (S E : List Char) : List Char → Option (List Char × List Char × List Char)
  | [] =>
    if startsWithList S [] then
      match splitFirst E [] with
      | some (m, r) => some ([], m, r)
      | none => none
    else none
  | c :: s' =>
    if startsWithList S (c :: s') then
      match splitFirst E ((c :: s').drop S.length) with
      | some (m, r) => some ([], m, r)
      | none =>
        match findMatch S E s' with
        | some (b, m, r) => some (c :: b, m, r)
        | none => none
    else
      match findMatch S E s' with
      | some (b, m, r) => some (c :: b, m, r)
      | none => none

/-- Specification-side description of the span search, written after the
spec's words "the shortest span from the literal start-tag to the literal
end-tag": the first occurrence of the start tag, paired with the first
occurrence of the end tag after it. -/
def specFindSpan (S E : List Char) (s : List Char) : Option (List Char × List Char × List Char) :=
  match splitFirst S s with
  | none => none
  | some (b, rest) =>
    match splitFirst E rest with
    | none => none
    | some (m, r) => some (b, m, r)

/-- JS replacement-template expansion performed by `String.replace` on its
replacement string: `$$` is a dollar, `$&` the matched substring, a
dollar-backtick the part of the subject before the match, a dollar-quote the
part after it, `$1` capture group 1 (the pattern built by `processWithTags`
has exactly one group, the lazy middle); any other `$`-sequence is literal
(the pattern has no named groups, so `$<` is literal as well). -/
def expandRepl (matched pre post grp : List Char) : List Char → List Char
  | [] => []
  | c :: cs =>
    if c = '$' then
      match cs with
      | [] => ['$']
      | d :: cs' =>
        if d = '$' then '$' :: expandRepl matched pre post grp cs'
        else if d = '&' then matched ++ expandRepl matched pre post grp cs'
        else if d = Char.ofNat 96 then pre ++ expandRepl matched pre post grp cs'
        else if d = Char.ofNat 39 then post ++ expandRepl matched pre post grp cs'
        else if d = '1' then grp ++ expandRepl matched pre post grp cs'
        else '$' :: d :: expandRepl matched pre post grp cs'
    else c :: expandRepl matched pre post grp cs

/-- Global replace of the pattern `S(.*?)E` in a suffix `s` of the original
subject, `pre` being the part of the subject before `s` (needed only for the
template expansion).  After an empty match JS advances one character; after a
nonempty match it continues at the end of the match.  Each step consumes at
least one character of `s`, so fuel `s.length + 1` suffices. -/
def replaceTagsGo (S E repl : List Char) : Nat → List Char → List Char → List Char
  | 0, _, s => s
  | fuel + 1, pre, s =>
    match findMatch S E s with
    | none => s
    | some (b, m, r) =>
      let matched := S ++ m ++ E
      b ++ expandRepl matched (pre ++ b) r m repl ++
        (if matched.isEmpty then
          match r with
          | [] => []
          | c :: r' => c :: replaceTagsGo S E repl fuel (pre ++ b ++ [c]) r'
        else replaceTagsGo S E repl fuel (pre ++ b ++ matched) r)

/-- `processWithTags(text, startTag, endTag, replaceStr)`
(src/index.js lines 209-218): replace, with flags `gs`, every match of
`escapeRegex(startTag) ++ "(.*?)" ++ escapeRegex(endTag)` by `replaceStr`.
The escaping (from the host's `utils.js`) makes the tag literals match
verbatim, which is what `findMatch` implements directly. -/
def processWithTags (text startTag endTag replaceStr : String) : String :=
  ⟨replaceTagsGo startTag.data endTag.data replaceStr.data
    (text.data.length + 1) [] text.data⟩

/-- Specification-side global tag-span rewriter: same loop, but the spans are
located by `specFindSpan` (first start tag, then first end tag after it). -/
def specReplaceTagsGo (S E repl : List Char) : Nat → List Char → List Char → List Char
  | 0, _, s => s
  | fuel + 1, pre, s =>
    match specFindSpan S E s with
    | none => s
    | some (b, m, r) =>
      let matched := S ++ m ++ E
      b ++ expandRepl matched (pre ++ b) r m repl ++
        (if matched.isEmpty then
          match r with
          | [] => []
          | c :: r' => c :: specReplaceTagsGo S E repl fuel (pre ++ b ++ [c]) r'
        else specReplaceTagsGo S E repl fuel (pre ++ b ++ matched) r)

/-- Specification-side tag-pair rewrite, following the spec's words. -/
def specRewriteTagPair (text startTag endTag replaceStr : String) : String :=
  ⟨specReplaceTagsGo startTag.data endTag.data replaceStr.data
    (text.data.length + 1) [] text.data⟩

/-- The tag-pair rewriter as claim C3 literally states it: every
non-overlapping shortest start-to-end span is replaced by the replacement
string itself (no template expansion). -/
def specReplaceTagsLiteralGo (S E repl : List Char) : Nat → List Char → List Char
  | 0, s => s
  | fuel + 1, s =>
    match specFindSpan S E s with
    | none => s
    | some (b, m, r) =>
      let matched := S ++ m ++ E
      b ++ repl ++
        (if matched.isEmpty then
          match r with
          | [] => []
          | c :: r' => c :: specReplaceTagsLiteralGo S E repl fuel r'
        else specReplaceTagsLiteralGo S E repl fuel r)

/-- Literal-replacement tag-pair rewrite (claim C3 as stated). -/
def specRewriteTagPairLiteral (text startTag endTag replaceStr : String) : String :=
  ⟨specReplaceTagsLiteralGo startTag.data endTag.data replaceStr.data
    (text.data.length + 1) text.data⟩

/-- Index of the last occurrence of `c` in the list (JS
`String.lastIndexOf`, with `none` standing for the JS result `-1`). -/
def lastIndexOf (c : Char) : List Char → Option Nat
  | [] => none
  | a :: as =>
    match lastIndexOf c as with
    | some i => some (i + 1)
    | none => if a = c then some 0 else none

/-- The flag-extraction step of `processWithRegex` (src/index.js lines
181-191): if the last `/` of the pattern string sits at an index `> 0`, the
flags are everything after it and the body is everything between index 1 and
it; otherwise the whole string is the body, with a single leading `/`
stripped when present.  Returns `(body, flags)`. -/
def parseRegexPattern (regexStr : String) : String × String :=
  match lastIndexOf '/' regexStr.data with
  | some k =>
    if 0 < k then
      (⟨(regexStr.data.take k).drop 1⟩, ⟨regexStr.data.drop (k + 1)⟩)
    else if startsWithList ['/'] regexStr.data then (⟨regexStr.data.drop 1⟩, "")
    else (regexStr, "")
  | none =>
    if startsWithList ['/'] regexStr.data then (⟨regexStr.data.drop 1⟩, "")
    else (regexStr, "")

/-- `processWithRegex(text, regexStr, replaceStr)` (src/index.js lines
178-199): parse the pattern, compile it, and replace; the `try`/`catch`
returning the original text on a compile failure is the `none` branch of the
`compile` parameter (the compiled regex's `replace` itself never throws). -/
def processWithRegex (compile : String → String → Option (String → String → String))
    (text regexStr replaceStr : String) : String :=
  let pf := parseRegexPattern regexStr
  match compile pf.1 pf.2 with
  | some exec => exec text replaceStr
  | none => text

/-- JS `text.includes(sub)`: exact, case-sensitive substring containment. -/
def jsIncludes (text sub : String) : Bool :=
  (splitFirst sub.data text.data).isSome

/-- `shouldApplyRule(tag, text, depth, placement)` (src/index.js lines
773-795).  The excluded-prompt list lives in the global settings object; it
is passed here explicitly.  The early returns of the source become the
if-chain; the `for`-loop with early return over the exclusion entries is the
`List.any`. -/
def shouldApplyRule (excludedPrompts : List TagBlockerExcludedPrompt)
    (tag : TagBlockerTag) (text : String) (depth : Option Int) (placement : Int) : Bool :=
  if !tag.enabled then false
  else if !(tag.placement.contains placement) then false
  else if (match depth, tag.minDepth with
           | some d, some lo => decide (d < lo)
           | _, _ => false) then false
  else if (match depth, tag.maxDepth with
           | some d, some hi => decide (hi < d)
           | _, _ => false) then false
  else if excludedPrompts.any (fun p => p.excluded && jsIncludes text p.text) then false
  else true

/-- The mode dispatch inlined in the rule loop (src/index.js lines 822-829):
a truthy `regexPattern` (present and non-empty) selects the regex rewriter,
anything else the tag rewriter. -/
def jsRewrite (compile : String → String → Option (String → String → String))
    (tag : TagBlockerTag) (text : String) : String :=
  match tag.regexPattern with
  | some p =>
    if p ≠ "" then processWithRegex compile text p tag.replaceString
    else processWithTags text tag.startTag tag.endTag tag.replaceString
  | none => processWithTags text tag.startTag tag.endTag tag.replaceString

/-- `applyTagBlockRules(text, depth, placement)` (src/index.js lines
804-844).  The global settings (rule list, exclusion list) and the RegExp
facility are explicit parameters; the settings-shape guard of lines 805-807
is vacuous in the typed embedding.  The loop keeps the source's
"only assign on change" step (lines 832-836); the debug logging and the
`wasModified` flag do not affect the result. -/
def applyTagBlockRules (compile : String → String → Option (String → String → String))
    (excludedPrompts : List TagBlockerExcludedPrompt) (tags : List TagBlockerTag)
    (text : String) (depth : Option Int) (placement : Int) : String :=
  tags.foldl
    (fun result tag =>
      if !(shouldApplyRule excludedPrompts tag result depth placement) then result
      else
        let processedText := jsRewrite compile tag result
        if processedText ≠ result then processedText else result)
    text

/-- Role-to-placement mapping of the messages adapter (src/index.js lines
916 and 923): `user` → 0, `assistant` → 1, anything else → 2. -/
def rolePlacement (role : String) : Int :=
  if role = "user" then 0 else if role = "assistant" then 1 else 2

/-- One element of a multimodal `content` array.  Only `type` and `text` are
inspected by the source. -/
structure MessagePart where
  type : String
  text : Option String
  deriving Repr, DecidableEq

/-- Shape of a `messages[i].content` (or of a body-level `content`) value:
a string, an array of parts, absent, or some other JS value (on which the
source does nothing). -/
inductive MessageContent where
  | str (s : String)
  | parts (ps : List MessagePart)
  | absent
  | other
  deriving Repr, DecidableEq

/-- One element of the `messages` array. -/
structure ChatMessage where
  role : String
  content : MessageContent
  deriving Repr, DecidableEq

/-- Per-element transformation of the messages adapter (src/index.js lines
912-929), at array index `i`: a truthy string content is rewritten with
depth hint `i` and the role's placement; in an array content every part with
`type === 'text'` and truthy `text` is rewritten the same way; a falsy or
unrecognized content is left alone. -/
def transformMessage (compile : String → String → Option (String → String → String))
    (excludedPrompts : List TagBlockerExcludedPrompt) (tags : List TagBlockerTag)
    (i : Nat) (msg : ChatMessage) : ChatMessage :=
  match msg.content with
  | .str s =>
    if s = "" then msg
    else { msg with content := .str (applyTagBlockRules compile excludedPrompts tags s
      (some (Int.ofNat i)) (rolePlacement msg.role)) }
  | .parts ps =>
    { msg with content := .parts (ps.map fun part =>
        match part.text with
        | some t =>
          if part.type = "text" && t ≠ "" then
            { part with text := some (applyTagBlockRules compile excludedPrompts tags t
                (some (Int.ofNat i)) (rolePlacement msg.role)) }
          else part
        | none => part) }
  | .absent => msg
  | .other => msg

/-- The `body.messages.forEach((msg, index) => ...)` loop starting from
index `i0`. -/
def adaptMessagesFrom (compile : String → String → Option (String → String → String))
    (excludedPrompts : List TagBlockerExcludedPrompt) (tags : List TagBlockerTag)
    (i0 : Nat) : List ChatMessage → List ChatMessage
  | [] => []
  | msg :: rest =>
    transformMessage compile excludedPrompts tags i0 msg ::
      adaptMessagesFrom compile excludedPrompts tags (i0 + 1) rest

/-- The messages adapter (src/index.js lines 911-930). -/
def adaptMessages (compile : String → String → Option (String → String → String))
    (excludedPrompts : List TagBlockerExcludedPrompt) (tags : List TagBlockerTag)
    (msgs : List ChatMessage) : List ChatMessage :=
  adaptMessagesFrom compile excludedPrompts tags 0 msgs

/-- The `(text, depth, placement)` triples on which the messages adapter
invokes the rule engine, in order: the extraction trace of the forEach of
lines 911-930. -/
def extractedMessageFields (msgs : List ChatMessage) : List (String × Option Int × Int) :=
  (msgs.mapIdx fun i msg =>
    match msg.content with
    | .str s =>
      if s = "" then [] else [(s, some (Int.ofNat i), rolePlacement msg.role)]
    | .parts ps =>
      ps.filterMap fun part =>
        match part.text with
        | some t =>
          if part.type = "text" && t ≠ "" then
            some (t, some (Int.ofNat i), rolePlacement msg.role)
          else none
        | none => none
    | .absent => []
    | .other => []).flatten

/-- Shape of a parsed request body: exactly the fields the interception code
reads (src/index.js lines 904-956); unrelated fields are untouched by the
source and are not modelled. -/
structure RequestBody where
  prompt : Option String
  messages : Option (List ChatMessage)
  text : Option String
  input : Option String
  content : MessageContent
  deriving Repr, DecidableEq

/-- `if (body.prompt) body.prompt = applyTagBlockRules(body.prompt, null, 2)`
(src/index.js lines 907-909). -/
def promptFieldStep (compile : String → String → Option (String → String → String))
    (excludedPrompts : List TagBlockerExcludedPrompt) (tags : List TagBlockerTag)
    (b : RequestBody) : RequestBody :=
  match b.prompt with
  | some p =>
    if p = "" then b
    else { b with prompt := some (applyTagBlockRules compile excludedPrompts tags p none 2) }
  | none => b

/-- The messages block (src/index.js lines 911-930). -/
def messagesFieldStep (compile : String → String → Option (String → String → String))
    (excludedPrompts : List TagBlockerExcludedPrompt) (tags : List TagBlockerTag)
    (b : RequestBody) : RequestBody :=
  match b.messages with
  | some ms => { b with messages := some (adaptMessages compile excludedPrompts tags ms) }
  | none => b

/-- `if (body.text) body.text = applyTagBlockRules(body.text, null, 2)`:
this block appears twice in the source, at lines 933-935 and again at lines
943-945. -/
def textFieldStep (compile : String → String → Option (String → String → String))
    (excludedPrompts : List TagBlockerExcludedPrompt) (tags : List TagBlockerTag)
    (b : RequestBody) : RequestBody :=
  match b.text with
  | some t =>
    if t = "" then b
    else { b with text := some (applyTagBlockRules compile excludedPrompts tags t none 2) }
  | none => b

/-- `if (body.input) ...` (src/index.js lines 938-940). -/
def inputFieldStep (compile : String → String → Option (String → String → String))
    (excludedPrompts : List TagBlockerExcludedPrompt) (tags : List TagBlockerTag)
    (b : RequestBody) : RequestBody :=
  match b.input with
  | some s =>
    if s = "" then b
    else { b with input := some (applyTagBlockRules compile excludedPrompts tags s none 2) }
  | none => b

/-- The body-level `content` block (src/index.js lines 946-956): a truthy
string is rewritten with placement 0, an array is handled per text part. -/
def contentFieldStep (compile : String → String → Option (String → String → String))
    (excludedPrompts : List TagBlockerExcludedPrompt) (tags : List TagBlockerTag)
    (b : RequestBody) : RequestBody :=
  match b.content with
  | .str s =>
    if s = "" then b
    else { b with content := .str (applyTagBlockRules compile excludedPrompts tags s none 0) }
  | .parts ps =>
    { b with content := .parts (ps.map fun item =>
        match item.text with
        | some t =>
          if item.type = "text" && t ≠ "" then
            { item with text := some (applyTagBlockRules compile excludedPrompts tags t none 0) }
          else item
        | none => item) }
  | .absent => b
  | .other => b

/-- The whole body-processing sequence inside the `try` of the fetch wrapper
(src/index.js lines 904-956), in source order; note the duplicated
`body.text` block. -/
def processBody (compile : String → String → Option (String → String → String))
    (excludedPrompts : List TagBlockerExcludedPrompt) (tags : List TagBlockerTag)
    (b : RequestBody) : RequestBody :=
  contentFieldStep compile excludedPrompts tags
    (textFieldStep compile excludedPrompts tags
      (inputFieldStep compile excludedPrompts tags
        (textFieldStep compile excludedPrompts tags
          (messagesFieldStep compile excludedPrompts tags
            (promptFieldStep compile excludedPrompts tags b)))))

/-- Shape of `options.body` as the fetch wrapper distinguishes it
(src/index.js lines 889-902): a string, `FormData`, `Blob`/`ArrayBuffer`, or
anything else. -/
inductive FetchBody where
  | str (s : String)
  | formData
  | blob
  | other
  deriving Repr, DecidableEq

/-- The destination allow-list of the fetch wrapper (src/index.js lines
866-884), JS `&&` binding tighter than `||`. -/
def urlMatchesAllowList (resource : String) : Bool :=
  jsIncludes resource "/api/v1/generate" ||
  jsIncludes resource "/api/v1/chat" ||
  jsIncludes resource "/v1/chat/completions" ||
  jsIncludes resource "/v1/completions" ||
  jsIncludes resource "/generate" ||
  jsIncludes resource "/chat/completions" ||
  jsIncludes resource "/completions" ||
  jsIncludes resource "/v1/messages" ||
  jsIncludes resource "/v1beta/models" ||
  (jsIncludes resource "localhost" &&
    (jsIncludes resource "/generate" || jsIncludes resource "/chat" ||
      jsIncludes resource "/completion"))

/-- The `window.fetch` wrapper (src/index.js lines 862-969), as the function
from the intercepted request to the body actually handed to the original
`fetch`.  `parse` models `JSON.parse` (`none` = throws), `serialize` models
`JSON.stringify`.  A non-matching URL, a falsy or non-string body, and the
`catch` of the `try` around parse/process/stringify all forward the original
body; the original `fetch` is called in every branch (the wrapper is a total
function). -/
def interceptFetch (parse : String → Option RequestBody) (serialize : RequestBody → String)
    (compile : String → String → Option (String → String → String))
    (excludedPrompts : List TagBlockerExcludedPrompt) (tags : List TagBlockerTag)
    (resource : String) (body : Option FetchBody) : Option FetchBody :=
  if urlMatchesAllowList resource then
    match body with
    | some (.str s) =>
      if s = "" then some (.str s)
      else
        match parse s with
        | some b => some (.str (serialize (processBody compile excludedPrompts tags b)))
        | none => some (.str s)
    | b => b
  else body

/-! ## Concrete fixtures used by counterexamples and witnesses -/

/-- A RegExp facility on which every compilation fails (every pattern is
treated as malformed). -/
def compileNone : String → String → Option (String → String → String) :=
  fun _ _ => none

/-- A baseline enabled tag-mode rule: strip `<a>...</a>`, system prompt
placement, no depth bounds. -/
def baseTag : TagBlockerTag where
  id := "base"
  startTag := "<a>"
  endTag := "</a>"
  enabled := true
  minDepth := none
  maxDepth := none
  markdownOnly := false
  promptOnly := true
  runOnEdit := true
  placement := [2]
  regexPattern := none
  replaceString := ""
  scriptName := "base"
  substituteRegex := 0

/-- A disabled rule (for the no-rule-matches instance). -/
def disabledTag : TagBlockerTag := { baseTag with enabled := false }

/-- A regex-mode rule with the malformed pattern of the spec's example. -/
def malformedRegexTag : TagBlockerTag :=
  { baseTag with regexPattern := some "/(/", scriptName := "malformed" }

/-- Tag rule whose replacement can create a fresh match: strips `ab...cd`. -/
def c9Tag : TagBlockerTag := { baseTag with startTag := "ab", endTag := "cd" }

/-- Degenerate tag rule with empty tags (the shape the import path actually
produces, see `importScriptToTag`): rewrites the empty string to `"X"`. -/
def emptyTagRule : TagBlockerTag :=
  { baseTag with startTag := "", endTag := "", replaceString := "X", placement := [0] }

/-- A RegExp facility behaving exactly as JS does on the two patterns
`^$` (replace an empty subject by the replacement) and `^ab$` (replace the
subject `"ab"` by the replacement); any other pattern fails to compile. -/
def c10Compile : String → String → Option (String → String → String) :=
  fun body _ =>
    if body = "^$" then some (fun t repl => if t = "" then repl else t)
    else if body = "^ab$" then some (fun t repl => if t = "ab" then repl else t)
    else none

/-- Regex rule `/^$/ → "v"`. -/
def c10Rule1 : TagBlockerTag :=
  { baseTag with regexPattern := some "/^$/", replaceString := "v", scriptName := "r1" }

/-- Regex rule `/^ab$/ → ""`. -/
def c10Rule2 : TagBlockerTag :=
  { baseTag with regexPattern := some "/^ab$/", replaceString := "", scriptName := "r2" }

/-- A request body whose only populated field is `text = "ab"`. -/
def c10Body : RequestBody where
  prompt := none
  messages := none
  text := some "ab"
  input := none
  content := .absent

/-- A persisted script with `findRegex` null and non-empty external start
and end tags (the TagPair import case of the spec). -/
def c6Script : ScriptData where
  id := some "s1"
  scriptName := some "tag script"
  findRegex := none
  replaceString := some ""
  startTag := some "<a>"
  endTag := some "</a>"
  minDepth := none
  maxDepth := none
  markdownOnly := none
  promptOnly := none
  runOnEdit := none
  placement := none
  substituteRegex := none
  disabled := none

/-! ## Characterizations of the scanning primitives -/

theorem startsWithList_iff (P : List Char) : ∀ s : List Char,
    startsWithList P s = true ↔ ∃ t, s = P ++ t := by
  induction P with
  | nil => intro s; simp [startsWithList]
  | cons p P ih =>
    intro s
    cases s with
    | nil => simp [startsWithList]
    | cons c s' =>
      simp only [startsWithList, Bool.and_eq_true, decide_eq_true_eq, ih,
        List.cons_append, List.cons.injEq]
      constructor
      · rintro ⟨rfl, t, rfl⟩
        exact ⟨t, rfl, rfl⟩
      · rintro ⟨t, rfl, rfl⟩
        exact ⟨rfl, t, rfl⟩

theorem splitFirst_eq_some (P : List Char) : ∀ (s u v : List Char),
    splitFirst P s = some (u, v) → s = u ++ P ++ v := by
  intro s
  induction s with
  | nil =>
    intro u v h
    simp only [splitFirst] at h
    by_cases hP : startsWithList P [] = true
    · rw [if_pos hP] at h
      obtain ⟨t, ht⟩ := (startsWithList_iff P []).mp hP
      cases h
      have h2 : P = [] ∧ t = [] := by simpa using ht.symm
      simp [h2.1]
    · rw [if_neg hP] at h; cases h
  | cons c s' ih =>
    intro u v h
    simp only [splitFirst] at h
    by_cases hP : startsWithList P (c :: s') = true
    · rw [if_pos hP] at h
      obtain ⟨t, ht⟩ := (startsWithList_iff P (c :: s')).mp hP
      cases h
      rw [ht, List.nil_append, List.drop_left]
    · rw [if_neg hP] at h
      cases hs : splitFirst P s' with
      | none => rw [hs] at h; cases h
      | some uv =>
        obtain ⟨u', v'⟩ := uv
        rw [hs] at h
        cases h
        have := ih _ _ hs
        simp [this]

theorem splitFirst_eq_none (P : List Char) : ∀ s : List Char,
    splitFirst P s = none → ∀ u v : List Char, s ≠ u ++ P ++ v := by
  intro s
  induction s with
  | nil =>
    intro h u v heq
    simp only [splitFirst] at h
    have hP : ¬ startsWithList P [] = true := by
      intro hh; rw [if_pos hh] at h; cases h
    apply hP
    rw [startsWithList_iff]
    have : u = [] ∧ P ++ v = [] := by simpa using heq.symm
    have hP0 : P = [] := (List.append_eq_nil.mp this.2).1
    exact ⟨[], by simp [hP0]⟩
  | cons c s' ih =>
    intro h u v heq
    simp only [splitFirst] at h
    have hP : ¬ startsWithList P (c :: s') = true := by
      intro hh; rw [if_pos hh] at h; cases h
    cases u with
    | nil =>
      apply hP
      rw [startsWithList_iff]
      exact ⟨v, by simpa using heq⟩
    | cons a u' =>
      rw [if_neg hP] at h
      cases hs : splitFirst P s' with
      | none =>
        have hcons : c = a ∧ s' = u' ++ P ++ v := by simpa using heq
        exact ih hs u' v hcons.2
      | some uv => rw [hs] at h; cases h

theorem splitFirst_isSome_iff (P s : List Char) :
    (splitFirst P s).isSome = true ↔ ∃ u v, s = u ++ P ++ v := by
  constructor
  · intro h
    cases hs : splitFirst P s with
    | none => rw [hs] at h; cases h
    | some uv => exact ⟨uv.1, uv.2, splitFirst_eq_some P s uv.1 uv.2 (by rw [hs])⟩
  · rintro ⟨u, v, rfl⟩
    cases hs : splitFirst P (u ++ P ++ v) with
    | none => exact absurd rfl (splitFirst_eq_none P _ hs u v)
    | some uv => rfl

theorem specFindSpan_eq_some (S E s b m r : List Char)
    (h : specFindSpan S E s = some (b, m, r)) : s = b ++ S ++ m ++ E ++ r := by
  cases h1 : splitFirst S s with
  | none => simp [specFindSpan, h1] at h
  | some p1 =>
    obtain ⟨b', rest⟩ := p1
    cases h2 : splitFirst E rest with
    | none => simp [specFindSpan, h1, h2] at h
    | some p2 =>
      obtain ⟨m', r'⟩ := p2
      simp only [specFindSpan, h1, h2, Option.some.injEq, Prod.mk.injEq] at h
      obtain ⟨rfl, rfl, rfl⟩ := h
      have e1 := splitFirst_eq_some S s b' rest h1
      have e2 := splitFirst_eq_some E rest m' r' h2
      rw [e1, e2]
      simp

theorem splitFirst_of_startsWith (P s : List Char) (h : startsWithList P s = true) :
    splitFirst P s = some ([], s.drop P.length) := by
  cases s with
  | nil =>
    have hP : P = [] := by
      obtain ⟨t, ht⟩ := (startsWithList_iff P []).mp h
      exact (List.append_eq_nil.mp ht.symm).1
    simp [splitFirst, hP, startsWithList]
  | cons c s' => simp [splitFirst, h]

/-- If the start tag matches at the head of `c :: s'` but no end tag follows
it, then no start-to-end span exists in the tail either: every end-tag
occurrence arising in the tail would also lie after the head match. -/
theorem specFindSpan_none_of_no_end (S E : List Char) (c : Char) (s' : List Char)
    (hS : startsWithList S (c :: s') = true)
    (hE : splitFirst E ((c :: s').drop S.length) = none) :
    specFindSpan S E s' = none := by
  cases hsp : specFindSpan S E s' with
  | none => rfl
  | some p =>
    obtain ⟨b, m, r⟩ := p
    exfalso
    have hdec : s' = b ++ S ++ m ++ E ++ r := specFindSpan_eq_some S E s' b m r hsp
    obtain ⟨t, ht⟩ := (startsWithList_iff S (c :: s')).mp hS
    have hdrop : (c :: s').drop S.length = t := by rw [ht, List.drop_left]
    rw [hdrop] at hE
    cases S with
    | nil =>
      have htc : t = c :: s' := by simpa using ht.symm
      apply splitFirst_eq_none E t hE (c :: (b ++ m)) r
      rw [htc, hdec]
      simp
    | cons d S0 =>
      have hcd : c = d ∧ s' = S0 ++ t := by simpa using ht
      have hts : t = s'.drop S0.length := by rw [hcd.2, List.drop_left]
      have hL : s' = (b ++ (d :: S0) ++ m) ++ (E ++ r) := by
        rw [hdec]; simp
      have hlen : S0.length ≤ (b ++ (d :: S0) ++ m).length := by
        simp [List.length_append]
        omega
      apply splitFirst_eq_none E t hE ((b ++ (d :: S0) ++ m).drop S0.length) r
      rw [hts, hL, List.drop_append_of_le_length hlen]
      simp

/-- The source-side leftmost-match search coincides with the spec-side
"first start tag, then first end tag after it" search. -/
theorem findMatch_eq_specFindSpan (S E : List Char) : ∀ s : List Char,
    findMatch S E s = specFindSpan S E s := by
  intro s
  induction s with
  | nil =>
    by_cases hS : startsWithList S [] = true
    · have hP : S = [] := by
        obtain ⟨t, ht⟩ := (startsWithList_iff S []).mp hS
        exact (List.append_eq_nil.mp ht.symm).1
      subst hP
      have hsf : splitFirst ([] : List Char) [] = some ([], []) := by
        simp [splitFirst, startsWithList]
      cases hE : splitFirst E ([] : List Char) with
      | none => simp [findMatch, specFindSpan, hS, hsf, hE]
      | some p =>
        obtain ⟨m, r⟩ := p
        simp [findMatch, specFindSpan, hS, hsf, hE]
    · have hS' : startsWithList S [] = false := by simpa using hS
      have hsf : splitFirst S [] = none := by simp [splitFirst, hS']
      simp [findMatch, specFindSpan, hS', hsf]
  | cons c s' ih =>
    by_cases hS : startsWithList S (c :: s') = true
    · have hsf := splitFirst_of_startsWith S (c :: s') hS
      cases hE : splitFirst E ((c :: s').drop S.length) with
      | some p =>
        obtain ⟨m, r⟩ := p
        have hL : findMatch S E (c :: s') = some ([], m, r) := by
          simp [findMatch, hS, hE]
        have hR : specFindSpan S E (c :: s') = some ([], m, r) := by
          simp [specFindSpan, hsf, hE]
        rw [hL, hR]
      | none =>
        have hnone : specFindSpan S E s' = none := specFindSpan_none_of_no_end S E c s' hS hE
        have hL : findMatch S E (c :: s') = none := by
          simp [findMatch, hS, hE, ih, hnone]
        have hR : specFindSpan S E (c :: s') = none := by
          simp [specFindSpan, hsf, hE]
        rw [hL, hR]
    · have hS' : startsWithList S (c :: s') = false := by simpa using hS
      have hgoal1 : findMatch S E (c :: s') =
          match findMatch S E s' with
          | some (b, m, r) => some (c :: b, m, r)
          | none => none := by
        simp [findMatch, hS']
      have hgoal2 : specFindSpan S E (c :: s') =
          match specFindSpan S E s' with
          | some (b, m, r) => some (c :: b, m, r)
          | none => none := by
        cases h1 : splitFirst S s' with
        | none => simp [specFindSpan, splitFirst, hS', h1]
        | some p1 =>
          obtain ⟨u, v⟩ := p1
          cases h2 : splitFirst E v with
          | none => simp [specFindSpan, splitFirst, hS', h1, h2]
          | some p2 =>
            obtain ⟨m, r⟩ := p2
            simp [specFindSpan, splitFirst, hS', h1, h2]
      rw [hgoal1, hgoal2, ih]

theorem replaceTagsGo_eq_spec (S E repl : List Char) : ∀ (fuel : Nat) (pre s : List Char),
    replaceTagsGo S E repl fuel pre s = specReplaceTagsGo S E repl fuel pre s := by
  intro fuel
  induction fuel with
  | zero => intro pre s; rfl
  | succ n ih =>
    intro pre s
    simp only [replaceTagsGo, specReplaceTagsGo, findMatch_eq_specFindSpan]
    cases specFindSpan S E s with
    | none => rfl
    | some p =>
      obtain ⟨b, m, r⟩ := p
      simp only [ih]

/-- When the text contains no start-to-end span, the leftmost-match search
fails and the tag rewriter is the identity. -/
theorem processWithTags_of_no_span (t S E r : String)
    (h : ¬ ∃ b m a : List Char, t.data = b ++ S.data ++ m ++ E.data ++ a) :
    processWithTags t S E r = t := by
  cases hfm : findMatch S.data E.data t.data with
  | some p =>
    obtain ⟨b, m, a⟩ := p
    exfalso
    apply h
    refine ⟨b, m, a, ?_⟩
    apply specFindSpan_eq_some
    rw [← findMatch_eq_specFindSpan, hfm]
  | none =>
    show String.mk (replaceTagsGo S.data E.data r.data (t.data.length + 1) [] t.data) = t
    rw [show replaceTagsGo S.data E.data r.data (t.data.length + 1) [] t.data = t.data by
      simp only [replaceTagsGo, hfm]]

/-- C3 (counterexample): `processWithTags` does not insert the replacement
string literally; JS `String.replace` expands `$`-templates in it.  With
replacement `"$&"` the code reproduces the matched span, while the claim as
stated predicts the literal text `"$&"` in its place. -/
theorem processWithTags_literal_replacement_counterexample :
    processWithTags "x<a>m</a>y" "<a>" "</a>" "$&" = "x<a>m</a>y" ∧
    specRewriteTagPairLiteral "x<a>m</a>y" "<a>" "</a>" "$&" = "x$&y" ∧
    ("x<a>m</a>y" : String) ≠ "x$&y" := by
  refine ⟨by decide, by decide, by decide⟩

/-- C3 (amended): the tag rewriter equals the spec-side rewriter that
replaces every non-overlapping shortest start-to-end span (non-greedy,
newline-spanning, tags taken verbatim) by the replacement string expanded as
a JS replacement template; a text with no span is returned unchanged; and
the round-trip example holds. -/
theorem processWithTags_tagpair_spec :
    (∀ t S E r : String, processWithTags t S E r = specRewriteTagPair t S E r) ∧
    (∀ t S E r : String,
      (¬ ∃ b m a : List Char, t.data = b ++ S.data ++ m ++ E.data ++ a) →
      processWithTags t S E r = t) ∧
    processWithTags "x<a>secret</a>y" "<a>" "</a>" "" = "xy" := by
  refine ⟨?_, processWithTags_of_no_span, by decide⟩
  intro t S E r
  show String.mk _ = String.mk _
  rw [replaceTagsGo_eq_spec]

/-- Witness for the hypothesis-bearing part of C3's amended theorem: the
one-character text `"q"` contains no `"ab"`-to-`"cd"` span, so it is left
unchanged. -/
theorem processWithTags_tagpair_spec_instance :
    processWithTags "q" "ab" "cd" "" = "q" :=
  processWithTags_tagpair_spec.2.1 "q" "ab" "cd" ""
    (by
      rintro ⟨b, m, a, h⟩
      have hl := congrArg List.length h
      have h1 : ("q".data).length = 1 := rfl
      have h2 : ("ab".data).length = 2 := rfl
      have h3 : ("cd".data).length = 2 := rfl
      simp only [List.length_append, h1, h2, h3] at hl
      omega)

/-- C1: the Matcher applies exactly when the rule is enabled, the placement
is in the rule's placement set, a known depth lies within the present bounds
(both bound checks skipped for an unknown depth), and no excluded entry's
literal text occurs verbatim (exact, case-sensitive) in the text. -/
theorem shouldApplyRule_characterization :
    ∀ (excl : List TagBlockerExcludedPrompt) (tag : TagBlockerTag) (text : String)
      (depth : Option Int) (placement : Int),
    shouldApplyRule excl tag text depth placement = true ↔
      (tag.enabled = true ∧
       placement ∈ tag.placement ∧
       (∀ d : Int, depth = some d →
          (∀ lo : Int, tag.minDepth = some lo → lo ≤ d) ∧
          (∀ hi : Int, tag.maxDepth = some hi → d ≤ hi)) ∧
       (∀ p ∈ excl, p.excluded = true →
          ¬ ∃ u v : List Char, text.data = u ++ p.text.data ++ v)) := by
  intro excl tag text depth placement
  rcases depth with _ | d <;>
    rcases hmin : tag.minDepth with _ | lo <;>
      rcases hmax : tag.maxDepth with _ | hi <;>
        simp only [shouldApplyRule, jsIncludes, hmin, hmax] <;>
          split_ifs with h1 h2 h3 <;>
            simp_all [List.any_eq_true, splitFirst_isSome_iff, Bool.and_eq_true]

/-- The loop body of `applyTagBlockRules` (with its "only assign on change"
test) acts on the accumulator exactly as the plain
"rewrite when the matcher applies" step. -/
theorem engineStep_eq (compile : String → String → Option (String → String → String))
    (excl : List TagBlockerExcludedPrompt) (depth : Option Int) (placement : Int)
    (tag : TagBlockerTag) (acc : String) :
    (if !(shouldApplyRule excl tag acc depth placement) then acc
     else
       let processedText := jsRewrite compile tag acc
       if processedText ≠ acc then processedText else acc) =
    (if shouldApplyRule excl tag acc depth placement then jsRewrite compile tag acc
     else acc) := by
  by_cases h : shouldApplyRule excl tag acc depth placement
  · by_cases hp : jsRewrite compile tag acc = acc
    · simp [h, hp]
    · simp [h, hp]
  · simp [h]

/-- C2: the Rule Engine is the left fold over the rule list that rewrites
the accumulator whenever the Matcher applies to the current accumulator, so
each rule sees the output of the previously applied ones; an empty rule list
or an entirely non-matching one returns the text unchanged. -/
theorem applyTagBlockRules_fold_spec :
    (∀ (compile : String → String → Option (String → String → String))
       (excl : List TagBlockerExcludedPrompt) (tags : List TagBlockerTag)
       (text : String) (depth : Option Int) (placement : Int),
       applyTagBlockRules compile excl tags text depth placement =
         tags.foldl (fun acc tag =>
           if shouldApplyRule excl tag acc depth placement then jsRewrite compile tag acc
           else acc) text) ∧
    (∀ (compile : String → String → Option (String → String → String))
       (excl : List TagBlockerExcludedPrompt) (text : String)
       (depth : Option Int) (placement : Int),
       applyTagBlockRules compile excl [] text depth placement = text) ∧
    (∀ (compile : String → String → Option (String → String → String))
       (excl : List TagBlockerExcludedPrompt) (tags : List TagBlockerTag)
       (text : String) (depth : Option Int) (placement : Int),
       (∀ tag ∈ tags, shouldApplyRule excl tag text depth placement = false) →
       applyTagBlockRules compile excl tags text depth placement = text) := by
  refine ⟨?_, ?_, ?_⟩
  · intro compile excl tags text depth placement
    induction tags generalizing text with
    | nil => rfl
    | cons t ts ih =>
      simp only [applyTagBlockRules, List.foldl_cons]
      rw [engineStep_eq]
      exact ih _
  · intro compile excl text depth placement
    rfl
  · intro compile excl tags text depth placement h
    induction tags with
    | nil => rfl
    | cons t ts ih =>
      have ht := h t (List.mem_cons_self t ts)
      simp only [applyTagBlockRules, List.foldl_cons, ht, Bool.not_false, if_pos]
      exact ih fun tag htag => h tag (List.mem_cons_of_mem t htag)

/-- Witness for C2's hypothesis-bearing parts: the empty rule list and a
list holding one disabled rule both leave `"t"` unchanged. -/
theorem applyTagBlockRules_fold_spec_instance :
    applyTagBlockRules compileNone [] [] "t" none 2 = "t" ∧
    applyTagBlockRules compileNone [] [disabledTag] "t" none 2 = "t" := by
  refine ⟨applyTagBlockRules_fold_spec.2.1 compileNone [] "t" none 2,
    applyTagBlockRules_fold_spec.2.2 compileNone [] [disabledTag] "t" none 2 ?_⟩
  intro tag htag
  have := List.mem_singleton.mp htag
  subst this
  decide

theorem lastIndexOf_sound (c : Char) : ∀ (l : List Char) (k : Nat),
    lastIndexOf c l = some k → l[k]? = some c := by
  intro l
  induction l with
  | nil => intro k h; simp [lastIndexOf] at h
  | cons a as ih =>
    intro k h
    simp only [lastIndexOf] at h
    cases has : lastIndexOf c as with
    | some i =>
      rw [has] at h
      cases h
      simpa using ih i has
    | none =>
      rw [has] at h
      by_cases hac : a = c
      · rw [if_pos hac] at h
        cases h
        simp [hac]
      · rw [if_neg hac] at h
        cases h

theorem lastIndexOf_eq_none_iff (c : Char) : ∀ l : List Char,
    lastIndexOf c l = none ↔ ∀ j : Nat, j < l.length → l[j]? ≠ some c := by
  intro l
  induction l with
  | nil => simp [lastIndexOf]
  | cons a as ih =>
    simp only [lastIndexOf]
    cases has : lastIndexOf c as with
    | some i =>
      have hi := lastIndexOf_sound c as i has
      have hlen : i < as.length := by
        by_contra hcon
        rw [List.getElem?_eq_none (Nat.le_of_not_lt hcon)] at hi
        cases hi
      simp only [has]
      constructor
      · intro h; cases h
      · intro h
        exact absurd (by simpa using hi) (h (i + 1) (by simpa using hlen))
    | none =>
      by_cases hac : a = c
      · subst hac
        simp only [if_pos rfl]
        constructor
        · intro h; cases h
        · intro h
          exfalso
          exact (h 0 (by simp)) (by simp)
      · rw [if_neg hac]
        constructor
        · intro _ j hj hje
          cases j with
          | zero => simp at hje; exact hac hje
          | succ j' =>
            have := (ih.mp has) j' (by simpa using hj)
            simp at hje
            exact this (by simpa using hje)
        · intro _; rfl

theorem lastIndexOf_eq_some_iff (c : Char) : ∀ (l : List Char) (k : Nat),
    lastIndexOf c l = some k ↔
      (l[k]? = some c ∧ ∀ j : Nat, j < l.length → k < j → l[j]? ≠ some c) := by
  intro l
  induction l with
  | nil => intro k; simp [lastIndexOf]
  | cons a as ih =>
    intro k
    simp only [lastIndexOf]
    cases has : lastIndexOf c as with
    | some i =>
      have hi := lastIndexOf_sound c as i has
      have hlen : i < as.length := by
        by_contra hcon
        rw [List.getElem?_eq_none (Nat.le_of_not_lt hcon)] at hi
        cases hi
      have hmax := (ih i).mp has
      constructor
      · intro h
        cases h
        refine ⟨by simpa using hi, ?_⟩
        intro j hj hkj
        cases j with
        | zero => omega
        | succ j' =>
          have := hmax.2 j' (by simpa using hj) (by omega)
          simpa using this
      · rintro ⟨hk, hafter⟩
        have hki : k = i + 1 := by
          rcases Nat.lt_trichotomy k (i + 1) with hlt | heq | hgt
          · exfalso
            exact hafter (i + 1) (by simpa using hlen) hlt (by simpa using hi)
          · exact heq
          · exfalso
            cases k with
            | zero => omega
            | succ k' =>
              have hk' : as[k']? = some c := by simpa using hk
              have hk'len : k' < as.length := by
                by_contra hcon
                rw [List.getElem?_eq_none (Nat.le_of_not_lt hcon)] at hk'
                cases hk'
              exact hmax.2 k' hk'len (by omega) hk'
        rw [hki]
    | none =>
      have hnone := (lastIndexOf_eq_none_iff c as).mp has
      by_cases hac : a = c
      · subst hac
        simp only [if_pos rfl]
        constructor
        · intro h
          cases h
          refine ⟨by simp, ?_⟩
          intro j hj hkj
          cases j with
          | zero => omega
          | succ j' =>
            intro hje
            exact hnone j' (by simpa using hj) (by simpa using hje)
        · rintro ⟨hk, hafter⟩
          cases k with
          | zero => rfl
          | succ k' =>
            exfalso
            have hk' : as[k']? = some a := by simpa using hk
            have hk'len : k' < as.length := by
              by_contra hcon
              rw [List.getElem?_eq_none (Nat.le_of_not_lt hcon)] at hk'
              cases hk'
            exact hnone k' hk'len hk'
      · rw [if_neg hac]
        constructor
        · intro h; cases h
        · rintro ⟨hk, hafter⟩
          exfalso
          cases k with
          | zero =>
            have : a = c := by simpa using hk
            exact hac this
          | succ k' =>
            have hk' : as[k']? = some c := by simpa using hk
            have hk'len : k' < as.length := by
              by_contra hcon
              rw [List.getElem?_eq_none (Nat.le_of_not_lt hcon)] at hk'
              cases hk'
            exact hnone k' hk'len hk'

/-- C4 (counterexample): a pattern with an interior slash and no trailing
delimiter is split at that slash, not compiled whole: `"a/b"` parses to body
`""` and flags `"b"`, not to body `"a/b"` with default flags. -/
theorem parseRegexPattern_interior_slash_counterexample :
    parseRegexPattern "a/b" = ("", "b") ∧ parseRegexPattern "a/b" ≠ ("a/b", "") := by
  exact ⟨by decide, by decide⟩

/-- C4 (amended): the parser splits at the last `/` whenever that slash sits
at an index greater than zero — trailing or not — taking the flags to be
everything after it and the body to be everything strictly between index 1
and it (the first character is dropped unconditionally); when the only slash
is the leading one, or there is no slash, the whole string is the body after
stripping at most one leading `/`, with empty flags. -/
theorem parseRegexPattern_spec :
    (∀ (s : String) (k : Nat),
       s.data[k]? = some '/' →
       (∀ j : Nat, j < s.data.length → k < j → s.data[j]? ≠ some '/') →
       0 < k →
       parseRegexPattern s = (⟨(s.data.take k).drop 1⟩, ⟨s.data.drop (k + 1)⟩)) ∧
    (∀ s : String,
       (∀ j : Nat, j < s.data.length → s.data[j]? ≠ some '/') →
       parseRegexPattern s = (s, "")) ∧
    (∀ s : String,
       s.data[0]? = some '/' →
       (∀ j : Nat, j < s.data.length → 0 < j → s.data[j]? ≠ some '/') →
       parseRegexPattern s = (⟨s.data.drop 1⟩, "")) := by
  refine ⟨?_, ?_, ?_⟩
  · intro s k hk hafter hkpos
    have h := (lastIndexOf_eq_some_iff '/' s.data k).mpr ⟨hk, hafter⟩
    simp [parseRegexPattern, h, hkpos]
  · intro s hno
    have h := (lastIndexOf_eq_none_iff '/' s.data).mpr hno
    have hsw : startsWithList ['/'] s.data = false := by
      cases hsw : startsWithList ['/'] s.data
      · rfl
      · exfalso
        obtain ⟨t, ht⟩ := (startsWithList_iff ['/'] s.data).mp hsw
        have h0 : s.data[0]? = some '/' := by rw [ht]; simp
        exact hno 0 (by rw [ht]; simp) h0
    simp [parseRegexPattern, h, hsw]
  · intro s h0 hafter
    have h := (lastIndexOf_eq_some_iff '/' s.data 0).mpr ⟨h0, hafter⟩
    have hsw : startsWithList ['/'] s.data = true := by
      cases hd : s.data with
      | nil => rw [hd] at h0; cases h0
      | cons c cs =>
        have hc : c = '/' := by rw [hd] at h0; simpa using h0
        subst hc
        simp [startsWithList]
    simp [parseRegexPattern, h, hsw]

/-- Witness for C4's amended theorem: a delimited pattern with flags, a bare
pattern, and a pattern with only a leading slash. -/
theorem parseRegexPattern_spec_instance :
    parseRegexPattern "/foo/gi" = ("foo", "gi") ∧
    parseRegexPattern "foo" = ("foo", "") ∧
    parseRegexPattern "/foo" = ("foo", "") := by
  refine ⟨?_, ?_, ?_⟩
  · exact (parseRegexPattern_spec.1 "/foo/gi" 4 (by decide) (by decide)
      (by decide)).trans (by decide)
  · exact parseRegexPattern_spec.2.1 "foo" (by decide)
  · exact (parseRegexPattern_spec.2.2 "/foo" (by decide) (by decide)).trans (by decide)

/-- C5: when the parsed pattern body and flags fail to compile, the regex
rewriter returns its input unchanged (the `catch` path), and inside the Rule
Engine such a rule is a no-op that does not disturb any other rule of the
list. -/
theorem processWithRegex_malformed_noop :
    (∀ (compile : String → String → Option (String → String → String))
       (text regexStr replaceStr : String),
       compile (parseRegexPattern regexStr).1 (parseRegexPattern regexStr).2 = none →
       processWithRegex compile text regexStr replaceStr = text) ∧
    (∀ (compile : String → String → Option (String → String → String))
       (excl : List TagBlockerExcludedPrompt) (l1 l2 : List TagBlockerTag)
       (tag : TagBlockerTag) (p : String) (text : String) (depth : Option Int)
       (placement : Int),
       tag.regexPattern = some p → p ≠ "" →
       compile (parseRegexPattern p).1 (parseRegexPattern p).2 = none →
       applyTagBlockRules compile excl (l1 ++ tag :: l2) text depth placement =
         applyTagBlockRules compile excl (l1 ++ l2) text depth placement) := by
  constructor
  · intro compile text regexStr replaceStr h
    simp [processWithRegex, h]
  · intro compile excl l1 l2 tag p text depth placement hp hpne hc
    have hnoop : ∀ acc : String, jsRewrite compile tag acc = acc := by
      intro acc
      simp [jsRewrite, hp, hpne, processWithRegex, hc]
    simp only [applyTagBlockRules, List.foldl_append, List.foldl_cons]
    rw [engineStep_eq]
    simp only [hnoop, ite_self]

/-- Witness for C5: the malformed pattern `"/(/"` (body `"("`) with a
RegExp facility rejecting it leaves the text and the engine run unchanged. -/
theorem processWithRegex_malformed_noop_instance :
    processWithRegex compileNone "any text" "/(/" "" = "any text" ∧
    applyTagBlockRules compileNone [] ([] ++ malformedRegexTag :: [baseTag]) "x<a>s</a>y"
        none 2 =
      applyTagBlockRules compileNone [] ([] ++ [baseTag]) "x<a>s</a>y" none 2 := by
  exact ⟨processWithRegex_malformed_noop.1 compileNone "any text" "/(/" "" rfl,
    processWithRegex_malformed_noop.2 compileNone [] [] [baseTag] malformedRegexTag "/(/"
      "x<a>s</a>y" none 2 rfl (by decide) rfl⟩

/-- C6: evaluation of the import at a script with `findRegex` null and
non-empty external tags.  Contrary to the claim (and to the intent visible
in the import validation of `onImportScriptClick`, src/index.js line 482,
which accepts exactly such scripts), `importScriptToTag` discards the
external `startTag`/`endTag` — the produced rule has empty tags and a null
`regexPattern`, i.e. it is neither a well-formed TagPair rule nor a Regex
rule. -/
theorem importScriptToTag_drops_tags :
    (importScriptToTag "fresh-id" c6Script).startTag = "" ∧
    (importScriptToTag "fresh-id" c6Script).endTag = "" ∧
    (importScriptToTag "fresh-id" c6Script).regexPattern = none ∧
    c6Script.findRegex = none ∧ c6Script.startTag = some "<a>" ∧
    c6Script.endTag = some "</a>" := by
  exact ⟨rfl, rfl, rfl, rfl, rfl, rfl⟩

/-- C9 (counterexample): the Rule Engine is not idempotent.  The rule
stripping `ab...cd` maps `"aabcdbcd"` to `"abcd"` in one pass — and the
removal has created a fresh `ab...cd` span, so a second pass yields `""`. -/
theorem applyTagBlockRules_not_idempotent_counterexample :
    applyTagBlockRules compileNone [] [c9Tag] "aabcdbcd" none 2 = "abcd" ∧
    applyTagBlockRules compileNone [] [c9Tag]
        (applyTagBlockRules compileNone [] [c9Tag] "aabcdbcd" none 2) none 2 = "" ∧
    ("" : String) ≠ "abcd" := by
  exact ⟨by decide, by decide, by decide⟩

/-- C9 (amended): the Rule Engine applied twice agrees with a single
application exactly on already-fully-rewritten texts: whenever one
application leaves the text unchanged, so does a second one.  For general
texts the two can differ (see the counterexample). -/
theorem applyTagBlockRules_idempotent_on_fixed_points :
    ∀ (compile : String → String → Option (String → String → String))
      (excl : List TagBlockerExcludedPrompt) (tags : List TagBlockerTag)
      (text : String) (depth : Option Int) (placement : Int),
      applyTagBlockRules compile excl tags text depth placement = text →
      applyTagBlockRules compile excl tags
          (applyTagBlockRules compile excl tags text depth placement) depth placement =
        applyTagBlockRules compile excl tags text depth placement := by
  intro compile excl tags text depth placement h
  rw [h]
  exact h

/-- Witness for C9's amended theorem: `"plain"` holds no `<a>...</a>` span,
so one engine pass fixes it and the second pass changes nothing. -/
theorem applyTagBlockRules_idempotent_instance :
    applyTagBlockRules compileNone [] [baseTag]
        (applyTagBlockRules compileNone [] [baseTag] "plain" none 2) none 2 =
      applyTagBlockRules compileNone [] [baseTag] "plain" none 2 :=
  applyTagBlockRules_idempotent_on_fixed_points compileNone [] [baseTag] "plain" none 2
    (by decide)

theorem adaptMessagesFrom_length (compile : String → String → Option (String → String → String))
    (excl : List TagBlockerExcludedPrompt) (tags : List TagBlockerTag) :
    ∀ (msgs : List ChatMessage) (i0 : Nat),
    (adaptMessagesFrom compile excl tags i0 msgs).length = msgs.length := by
  intro msgs
  induction msgs with
  | nil => intro i0; rfl
  | cons msg rest ih =>
    intro i0
    simp [adaptMessagesFrom, ih]

theorem adaptMessagesFrom_get (compile : String → String → Option (String → String → String))
    (excl : List TagBlockerExcludedPrompt) (tags : List TagBlockerTag) :
    ∀ (msgs : List ChatMessage) (i0 k : Nat)
      (h1 : k < (adaptMessagesFrom compile excl tags i0 msgs).length)
      (h2 : k < msgs.length),
    (adaptMessagesFrom compile excl tags i0 msgs).get ⟨k, h1⟩ =
      transformMessage compile excl tags (i0 + k) (msgs.get ⟨k, h2⟩) := by
  intro msgs
  induction msgs with
  | nil => intro i0 k h1 h2; simp at h2
  | cons msg rest ih =>
    intro i0 k h1 h2
    cases k with
    | zero => simp [adaptMessagesFrom]
    | succ k' =>
      have harith : i0 + 1 + k' = i0 + (k' + 1) := by omega
      have h1' : k' < (adaptMessagesFrom compile excl tags (i0 + 1) rest).length := by
        have := h1
        simp only [adaptMessagesFrom, List.length_cons] at this
        omega
      have h2' : k' < rest.length := by simpa using h2
      have := ih (i0 + 1) k' h1' h2'
      simp only [adaptMessagesFrom, List.get_cons_succ, this, harith]

/-- C7 (counterexample): a messages element whose string content is the
empty string is skipped by the adapter (the `if (msg.content)` truthiness
guard), even though the Rule Engine would rewrite that content — here to
`"X"` under the degenerate empty-tag rule, which arises from the import
path.  So the adapter does not rewrite every element's string content. -/
theorem adaptMessages_empty_content_counterexample :
    adaptMessages compileNone [] [emptyTagRule]
        [{ role := "user", content := .str "" }] =
      [{ role := "user", content := .str "" }] ∧
    applyTagBlockRules compileNone [] [emptyTagRule] "" (some 0) (rolePlacement "user")
      = "X" ∧
    ([{ role := "user", content := MessageContent.str "" }] : List ChatMessage) ≠
      [{ role := "user",
         content := .str (applyTagBlockRules compileNone [] [emptyTagRule] ""
           (some 0) (rolePlacement "user")) }] := by
  exact ⟨by decide, by decide, by decide⟩

/-- C7 (amended): the messages adapter keeps the array length and transforms
each element independently at its own index: a non-empty string content is
rewritten by the engine with depth hint the element's index and placement
derived from the role (`user` → 0/UserInput, `assistant` → 1/AssistantOutput,
anything else → 2/SystemPrompt, per `rolePlacement` in `transformMessage`);
empty or absent content is left unchanged.  On the body of the spec's
example exactly one field is extracted, with placement UserInput and
depth 0. -/
theorem adaptMessages_spec :
    (∀ (compile : String → String → Option (String → String → String))
       (excl : List TagBlockerExcludedPrompt) (tags : List TagBlockerTag)
       (msgs : List ChatMessage),
       (adaptMessages compile excl tags msgs).length = msgs.length) ∧
    (∀ (compile : String → String → Option (String → String → String))
       (excl : List TagBlockerExcludedPrompt) (tags : List TagBlockerTag)
       (msgs : List ChatMessage) (k : Nat)
       (h1 : k < (adaptMessages compile excl tags msgs).length)
       (h2 : k < msgs.length),
       (adaptMessages compile excl tags msgs).get ⟨k, h1⟩ =
         transformMessage compile excl tags k (msgs.get ⟨k, h2⟩)) ∧
    (rolePlacement "user" = 0 ∧ rolePlacement "assistant" = 1) ∧
    (∀ role : String, role ≠ "user" → role ≠ "assistant" → rolePlacement role = 2) ∧
    extractedMessageFields [{ role := "user", content := .str "hi" }] =
      [("hi", some 0, 0)] := by
  refine ⟨?_, ?_, ⟨rfl, rfl⟩, ?_, by decide⟩
  · intro compile excl tags msgs
    exact adaptMessagesFrom_length compile excl tags msgs 0
  · intro compile excl tags msgs k h1 h2
    have := adaptMessagesFrom_get compile excl tags msgs 0 k h1 h2
    simpa using this
  · intro role h1 h2
    simp [rolePlacement, h1, h2]

/-- Witness for C7's amended theorem: the element of the one-message example
and a role outside `user`/`assistant`. -/
theorem adaptMessages_spec_instance :
    (adaptMessages compileNone [] [] [{ role := "user", content := .str "hi" }]).get
        ⟨0, by decide⟩ =
      transformMessage compileNone [] [] 0 { role := "user", content := .str "hi" } ∧
    rolePlacement "system" = 2 := by
  exact ⟨adaptMessages_spec.2.1 compileNone [] [] [{ role := "user", content := .str "hi" }]
      0 (by decide) (by decide),
    adaptMessages_spec.2.2.2.1 "system" (by decide) (by decide)⟩

/-- C8: on a parse failure (the only fallible stage of the embedded
pipeline — JS exceptions during adaptation would be caught by the same
`try`), the wrapper forwards the original body string untouched; non-string
bodies always pass through untouched.  The wrapper is a total function, so
the original transport call is made in every case. -/
theorem interceptFetch_fallback :
    (∀ (parse : String → Option RequestBody) (serialize : RequestBody → String)
       (compile : String → String → Option (String → String → String))
       (excl : List TagBlockerExcludedPrompt) (tags : List TagBlockerTag)
       (resource s : String),
       parse s = none →
       interceptFetch parse serialize compile excl tags resource (some (.str s)) =
         some (.str s)) ∧
    (∀ (parse : String → Option RequestBody) (serialize : RequestBody → String)
       (compile : String → String → Option (String → String → String))
       (excl : List TagBlockerExcludedPrompt) (tags : List TagBlockerTag)
       (resource : String) (b : Option FetchBody),
       (∀ s : String, b ≠ some (.str s)) →
       interceptFetch parse serialize compile excl tags resource b = b) := by
  constructor
  · intro parse serialize compile excl tags resource s h
    by_cases hu : urlMatchesAllowList resource
    · by_cases hs : s = ""
      · simp [interceptFetch, hu, hs]
      · simp [interceptFetch, hu, hs, h]
    · simp [interceptFetch, hu]
  · intro parse serialize compile excl tags resource b hb
    by_cases hu : urlMatchesAllowList resource
    · cases b with
      | none => simp [interceptFetch, hu]
      | some fb =>
        cases fb with
        | str s => exact absurd rfl (hb s)
        | formData => simp [interceptFetch, hu]
        | blob => simp [interceptFetch, hu]
        | other => simp [interceptFetch, hu]
    · simp [interceptFetch, hu]

/-- Witness for C8: a non-JSON string body on an allow-listed endpoint, and
a `FormData` body. -/
theorem interceptFetch_fallback_instance :
    interceptFetch (fun _ => none) (fun _ => "") compileNone [] []
        "https://api.example.com/v1/completions" (some (.str "not json")) =
      some (.str "not json") ∧
    interceptFetch (fun _ => none) (fun _ => "") compileNone [] []
        "https://api.example.com/v1/completions" (some .formData) = some .formData := by
  exact ⟨interceptFetch_fallback.1 (fun _ => none) (fun _ => "") compileNone [] []
      "https://api.example.com/v1/completions" "not json" rfl,
    interceptFetch_fallback.2 (fun _ => none) (fun _ => "") compileNone [] []
      "https://api.example.com/v1/completions" (some .formData)
      (by intro s h; cases h)⟩

theorem promptFieldStep_text (compile : String → String → Option (String → String → String))
    (excl : List TagBlockerExcludedPrompt) (tags : List TagBlockerTag) (b : RequestBody) :
    (promptFieldStep compile excl tags b).text = b.text := by
  cases hp : b.prompt with
  | none => simp [promptFieldStep, hp]
  | some p =>
    by_cases hpe : p = "" <;> simp [promptFieldStep, hp, hpe]

theorem messagesFieldStep_text (compile : String → String → Option (String → String → String))
    (excl : List TagBlockerExcludedPrompt) (tags : List TagBlockerTag) (b : RequestBody) :
    (messagesFieldStep compile excl tags b).text = b.text := by
  cases hm : b.messages with
  | none => simp [messagesFieldStep, hm]
  | some ms => simp [messagesFieldStep, hm]

theorem inputFieldStep_text (compile : String → String → Option (String → String → String))
    (excl : List TagBlockerExcludedPrompt) (tags : List TagBlockerTag) (b : RequestBody) :
    (inputFieldStep compile excl tags b).text = b.text := by
  cases hi : b.input with
  | none => simp [inputFieldStep, hi]
  | some s =>
    by_cases hse : s = "" <;> simp [inputFieldStep, hi, hse]

theorem contentFieldStep_text (compile : String → String → Option (String → String → String))
    (excl : List TagBlockerExcludedPrompt) (tags : List TagBlockerTag) (b : RequestBody) :
    (contentFieldStep compile excl tags b).text = b.text := by
  cases hc : b.content with
  | str s => by_cases hse : s = "" <;> simp [contentFieldStep, hc, hse]
  | parts ps => simp [contentFieldStep, hc]
  | absent => simp [contentFieldStep, hc]
  | other => simp [contentFieldStep, hc]

theorem textFieldStep_text_of_some (compile : String → String → Option (String → String → String))
    (excl : List TagBlockerExcludedPrompt) (tags : List TagBlockerTag) (b : RequestBody)
    (t : String) (ht : b.text = some t) :
    (textFieldStep compile excl tags b).text =
      (if t = "" then some t
       else some (applyTagBlockRules compile excl tags t none 2)) := by
  by_cases hte : t = "" <;> simp [textFieldStep, ht, hte]

/-- C10 (counterexample): the pipeline does not unconditionally run the
engine twice on `text`.  With `/^$/ → "v"` before `/^ab$/ → ""`, one engine
pass sends `"ab"` to `""`; the second `if (body.text)` guard then sees a
falsy value and skips, so `""` is transmitted — while a genuine second pass
would give `"v"`. -/
theorem processBody_single_application_counterexample :
    (processBody c10Compile [] [c10Rule1, c10Rule2] c10Body).text = some "" ∧
    applyTagBlockRules c10Compile [] [c10Rule1, c10Rule2]
        (applyTagBlockRules c10Compile [] [c10Rule1, c10Rule2] "ab" none 2) none 2
      = "v" ∧
    c10Body.text = some "ab" ∧ (some "" : Option String) ≠ some "v" := by
  exact ⟨by decide, by decide, rfl, by decide⟩

/-- C10 (amended): for a body whose `text` field is a non-empty string, the
pipeline runs the engine on it (null depth, SystemPrompt placement) and then
runs the engine a second time on the result exactly when that result is
still non-empty (truthy); an empty first-pass result is transmitted as is. -/
theorem processBody_text_double_application :
    ∀ (compile : String → String → Option (String → String → String))
      (excl : List TagBlockerExcludedPrompt) (tags : List TagBlockerTag)
      (b : RequestBody) (t : String),
      b.text = some t → t ≠ "" →
      (processBody compile excl tags b).text =
        (if applyTagBlockRules compile excl tags t none 2 = "" then
           some (applyTagBlockRules compile excl tags t none 2)
         else
           some (applyTagBlockRules compile excl tags
             (applyTagBlockRules compile excl tags t none 2) none 2)) := by
  intro compile excl tags b t ht htne
  have h1 : (messagesFieldStep compile excl tags
      (promptFieldStep compile excl tags b)).text = some t := by
    rw [messagesFieldStep_text, promptFieldStep_text, ht]
  have h2 := textFieldStep_text_of_some compile excl tags
    (messagesFieldStep compile excl tags (promptFieldStep compile excl tags b)) t h1
  rw [if_neg htne] at h2
  have h3 : (inputFieldStep compile excl tags (textFieldStep compile excl tags
      (messagesFieldStep compile excl tags (promptFieldStep compile excl tags b)))).text =
      some (applyTagBlockRules compile excl tags t none 2) := by
    rw [inputFieldStep_text]
    exact h2
  have h4 := textFieldStep_text_of_some compile excl tags
    (inputFieldStep compile excl tags (textFieldStep compile excl tags
      (messagesFieldStep compile excl tags (promptFieldStep compile excl tags b))))
    (applyTagBlockRules compile excl tags t none 2) h3
  show (contentFieldStep compile excl tags _).text = _
  rw [contentFieldStep_text, h4]

/-- Witness for C10's amended theorem: on `text = "ab"` with only the
`/^$/ → "v"` rule the first pass returns `"ab"` unchanged, which is
non-empty, so the transmitted value is the second pass's output. -/
theorem processBody_text_double_application_instance :
    (processBody c10Compile [] [c10Rule1] c10Body).text =
      (if applyTagBlockRules c10Compile [] [c10Rule1] "ab" none 2 = "" then
         some (applyTagBlockRules c10Compile [] [c10Rule1] "ab" none 2)
       else
         some (applyTagBlockRules c10Compile [] [c10Rule1]
           (applyTagBlockRules c10Compile [] [c10Rule1] "ab" none 2) none 2)) :=
  processBody_text_double_application c10Compile [] [c10Rule1] c10Body "ab" rfl (by decide)
